import Mathlib

/-!
Verification development for the placecare PLACE-database search engine.

The Rust sources are embedded shallowly:
  * Rust String / &str values that are processed character by character
    (query sequences, motif sequences) become List Char; identifiers and
    free-text metadata become String.
  * Vec becomes List, HashMap becomes an association list whose lookup
    follows the most recent insertion (insertions cons at the front), which
    is extensionally the overwrite semantics of HashMap::insert.
  * The two Rust while-loops (compute_lps and kmp_search from
    src/place_search.rs) are embedded with an explicit fuel parameter so
    that the definitions are structurally recursive and kernel-reducible;
    the fuel chosen in compute_lps / kmp_search strictly dominates the loop
    variant 2*(n - i) + j, so the out-of-fuel branch is never taken (this
    is re-established inside the correctness proofs).
  * rayon's par_iter accumulation into a Mutex is sequentialized in corpus
    order; sort_unstable_by on the q_start key is modelled by a concrete
    comparison sort on the same key (List.insertionSort); proofs rely only
    on it being a permutation, never on tie order.
  * Functions returning Result become Except String; eprintln/println are
    dropped (no observable pure effect).
-/

/-! ## Data model (src/io.rs, src/place_desc.rs) -/

/-- Input query sequence description (struct RecordDesc, src/io.rs). -/
structure RecordDesc where
  id : String
  seq : List Char
  len : Nat
deriving DecidableEq, Repr

/-- RecordDesc::new uppercases the sequence and records its length
(byte length in Rust; for the ASCII nucleotide alphabet this equals the
character count used here). -/
def RecordDesc.new (id : String) (seq : List Char) : RecordDesc :=
  { id := id, seq := seq.map Char.toUpper, len := seq.length }

/-- One matched element (struct SearchedDesc, src/io.rs). -/
structure SearchedDesc where
  q_id : String
  q_start : Nat
  q_end : Nat
  q_dir : Nat
  e_id : String
  e_len : Nat
  e_sq : List Char
  e_ac : String
  e_desc : String
deriving DecidableEq, Repr

/-- SearchedDesc::new (field-order constructor). -/
def SearchedDesc.new (q_id : String) (q_start q_end q_dir : Nat) (e_id : String)
    (e_len : Nat) (e_sq : List Char) (e_ac e_desc : String) : SearchedDesc :=
  ⟨q_id, q_start, q_end, q_dir, e_id, e_len, e_sq, e_ac, e_desc⟩

/-- Search result for one query (struct SearchResult, src/io.rs). -/
structure SearchResult where
  id : String
  count : Nat
  search_descs : List SearchedDesc
deriving DecidableEq, Repr

/-- SearchResult::new sets count to the number of matches. -/
def SearchResult.new (id : String) (searched_descs : List SearchedDesc) : SearchResult :=
  ⟨id, searched_descs.length, searched_descs⟩

/-- One PLACE database entry (struct SeqDesc, src/place_desc.rs). -/
structure SeqDesc where
  id : String
  ac : String
  dt : String
  de : String
  kw : List String
  os : String
  ra : String
  rt : String
  rl : String
  rd : String
  rc : String
  sq : List Char
deriving DecidableEq, Repr

instance : Inhabited SeqDesc :=
  ⟨⟨"", "", "", "", [], "", "", "", "", "", "", []⟩⟩

/-- The exact/iupac/all partition of the database (struct SeqBuilder). -/
structure SeqBuilder where
  exact : List SeqDesc
  iupac : List SeqDesc
  all : List SeqDesc
deriving DecidableEq, Repr

/-- The id and accession indices (struct PlaceIndex, src/place_desc.rs).
HashMap String usize is modelled as an association list; lookups follow the
most recent insertion. -/
structure PlaceIndex where
  id_index : List (String × Nat)
  ac_index : List (String × Nat)
deriving DecidableEq, Repr

/-- The whole database (struct PlaceDB, src/place_desc.rs). -/
structure PlaceDB where
  seq_desc : SeqBuilder
  seq_index : PlaceIndex
deriving DecidableEq, Repr

/-! ## Corpus construction (src/build.rs) -/

/-- The exact-classification test from SeqBuilder::from_seq_builder:
every character of the sequence is a literal A/C/G/T. -/
def is_exact_sq (sq : List Char) : Bool :=
  sq.all (fun c => c == 'A' || c == 'C' || c == 'G' || c == 'T')

/-- The degenerate-classification test from SeqBuilder::from_seq_builder:
some character is one of the eleven IUPAC wildcard symbols. -/
def is_iupac_sq (sq : List Char) : Bool :=
  sq.any (fun c =>
    c == 'R' || c == 'Y' || c == 'M' || c == 'K' || c == 'S' || c == 'W' ||
    c == 'B' || c == 'D' || c == 'H' || c == 'V' || c == 'N')

/-- SeqBuilder::from_seq_builder (src/build.rs): partition the entries into
the exact and degenerate subsets, keeping the full ordinal list. -/
def SeqBuilder.from_seq_builder (seq : List SeqDesc) : SeqBuilder :=
  { exact := seq.filter (fun desc => is_exact_sq desc.sq)
  , iupac := seq.filter (fun desc => is_iupac_sq desc.sq)
  , all := seq }

/-- PlaceIndex::from_descs (src/build.rs): insert (id, ordinal) and
(ac, ordinal) for every entry, in order.  HashMap::insert overwrites, which
the association-list model realizes by consing the newest entry in front. -/
def PlaceIndex.from_descs (descs : List SeqDesc) : PlaceIndex :=
  { id_index := descs.enum.foldl (fun m pd => (pd.2.id, pd.1) :: m) []
  , ac_index := descs.enum.foldl (fun m pd => (pd.2.ac, pd.1) :: m) [] }

/-! ## IUPAC code table (src/db.rs, init_iupac_map) -/

/-- init_iupac_map (src/db.rs): the 15-entry symbol table.  Values are the
literal regex-fragment strings from the source ("A", "[AG]", ...), kept as
character lists. -/
def init_iupac_map : List (Char × List Char) :=
  [ ('A', ['A']), ('C', ['C']), ('G', ['G']), ('T', ['T'])
  , ('R', ['[', 'A', 'G', ']']), ('Y', ['[', 'C', 'T', ']'])
  , ('M', ['[', 'A', 'C', ']']), ('K', ['[', 'G', 'T', ']'])
  , ('S', ['[', 'G', 'C', ']']), ('W', ['[', 'A', 'T', ']'])
  , ('B', ['[', 'C', 'G', 'T', ']']), ('D', ['[', 'A', 'G', 'T', ']'])
  , ('H', ['[', 'A', 'C', 'T', ']']), ('V', ['[', 'A', 'C', 'G', ']'])
  , ('N', ['[', 'A', 'C', 'G', 'T', ']']) ]

/-- trim_start_matches('[') followed by trim_end_matches(']') from
Search::is_iupac_match. -/
def stripBrackets (s : List Char) : List Char :=
  ((s.dropWhile (fun c => c == '[')).reverse.dropWhile (fun c => c == ']')).reverse

/-- Search::is_iupac_match (src/place_search.rs): literal equality first,
then membership in the looked-up pattern (single character compared
directly, bracket class searched character by character). -/
def is_iupac_match (text_char pattern_char : Char) : Bool :=
  if pattern_char = text_char then true
  else
    match init_iupac_map.lookup pattern_char with
    | some pattern =>
      if pattern.length = 1 then pattern.getD 0 'A' == text_char
      else (stripBrackets pattern).any (fun c => c == text_char)
    | none => false

/-! ## Strand expander (src/place_search.rs, Search::reverse_complement) -/

/-- The per-character complement used by Search::reverse_complement:
A and T swap, C and G swap, everything else passes through. -/
def complement_char (c : Char) : Char :=
  if c = 'A' then 'T'
  else if c = 'T' then 'A'
  else if c = 'C' then 'G'
  else if c = 'G' then 'C'
  else c

/-- Search::reverse_complement: push the complement of each character,
iterating from the end. -/
def reverse_complement (query : List Char) : List Char :=
  query.reverse.map complement_char

/-! ## KMP (src/place_search.rs, Search::compute_lps and Search::kmp_search) -/

/-- The while-loop of Search::compute_lps, with explicit fuel.
State: the lps array under construction, the running border length len and
the cursor i. -/
def lpsLoop (chars : List Char) (lps : List Nat) (len i : Nat) : Nat → List Nat
  | 0 => lps
  | fuel + 1 =>
    if i < chars.length then
      if chars.getD i 'A' = chars.getD len 'A' then
        lpsLoop chars (lps.set i (len + 1)) (len + 1) (i + 1) fuel
      else if len ≠ 0 then
        lpsLoop chars lps (lps.getD (len - 1) 0) i fuel
      else
        lpsLoop chars (lps.set i 0) len (i + 1) fuel
    else lps

/-- Search::compute_lps: longest proper prefix-suffix array, built by the
loop above starting from an all-zero vector, len = 0, i = 1.  The fuel
2*n + 1 strictly dominates the loop variant 2*(n - i) + len. -/
def compute_lps (pattern : List Char) : List Nat :=
  lpsLoop pattern (List.replicate pattern.length 0) 0 1 (2 * pattern.length + 1)

/-- The while-loop of Search::kmp_search, with explicit fuel.  The loop
body first advances both cursors on a character match, then either records
a full match (resetting j through the lps array) or performs one failure
transition; the branch structure below mirrors that body with the
character-comparison outcome hoisted to the outside. -/
def kmpLoop (text pattern : List Char) (lps : List Nat) (i j : Nat)
    (ms : List Nat) : Nat → List Nat
  | 0 => ms
  | fuel + 1 =>
    if i < text.length then
      if pattern.getD j 'A' = text.getD i 'A' then
        if j + 1 = pattern.length then
          kmpLoop text pattern lps (i + 1) (lps.getD (pattern.length - 1) 0)
            (ms ++ [i + 1 - pattern.length]) fuel
        else if i + 1 < text.length ∧ pattern.getD (j + 1) 'A' ≠ text.getD (i + 1) 'A' then
          if j + 1 ≠ 0 then
            kmpLoop text pattern lps (i + 1) (lps.getD (j + 1 - 1) 0) ms fuel
          else
            kmpLoop text pattern lps (i + 2) (j + 1) ms fuel
        else
          kmpLoop text pattern lps (i + 1) (j + 1) ms fuel
      else
        if j = pattern.length then
          kmpLoop text pattern lps i (lps.getD (pattern.length - 1) 0)
            (ms ++ [i - pattern.length]) fuel
        else if i < text.length ∧ pattern.getD j 'A' ≠ text.getD i 'A' then
          if j ≠ 0 then
            kmpLoop text pattern lps i (lps.getD (j - 1) 0) ms fuel
          else
            kmpLoop text pattern lps (i + 1) j ms fuel
        else
          kmpLoop text pattern lps i j ms fuel
    else ms

/-- Search::kmp_search: empty patterns and patterns longer than the text
yield no matches; otherwise run the KMP loop from (0, 0).  The fuel
2*n + 1 strictly dominates the loop variant 2*(n - i) + j. -/
def kmp_search (text pattern : List Char) : List Nat :=
  if pattern.isEmpty then []
  else if pattern.length > text.length then []
  else kmpLoop text pattern (compute_lps pattern) 0 0 [] (2 * text.length + 1)

/-- Search::kmp_search_with_iupac (src/place_search.rs): despite the name,
a windowed scan — position i matches when every offset j of the pattern
passes is_iupac_match against the text character at i + j. -/
def kmp_search_with_iupac (text pattern : List Char) : List Nat :=
  if pattern.isEmpty then []
  else if pattern.length > text.length then []
  else
    (List.range (text.length - pattern.length + 1)).filter
      (fun i => (List.range pattern.length).all
        (fun j => is_iupac_match (text.getD (i + j) 'A') (pattern.getD j 'A')))

/-! ## Search orchestration (src/place_search.rs) -/

/-- Forward-strand matches of the exact subset
(first par_iter loop of Search::search_element_exact, sequentialized in
corpus order): 1-based start is start + 1, reported end is
start + len + 1 (the exclusive end start + len, plus one). -/
def exact_fwd_descs (db : PlaceDB) (query : RecordDesc) : List SearchedDesc :=
  db.seq_desc.exact.flatMap (fun pattern =>
    (kmp_search query.seq pattern.sq).map (fun start =>
      SearchedDesc.new query.id (start + 1) (start + pattern.sq.length + 1) 1
        pattern.id pattern.sq.length pattern.sq pattern.ac pattern.de))

/-- Reverse-strand matches of the exact subset (second par_iter loop of
Search::search_element_exact): positions found in the reverse complement
are translated through query.len + 1 - end and query.len + 1 - start,
where end = start + len is the exclusive end. -/
def exact_rev_descs (db : PlaceDB) (query : RecordDesc) : List SearchedDesc :=
  db.seq_desc.exact.flatMap (fun pattern =>
    (kmp_search (reverse_complement query.seq) pattern.sq).map (fun start =>
      SearchedDesc.new query.id (query.len + 1 - (start + pattern.sq.length))
        (query.len + 1 - start) 0
        pattern.id pattern.sq.length pattern.sq pattern.ac pattern.de))

/-- Forward-strand matches of the degenerate subset
(first par_iter loop of Search::search_element_iupac). -/
def iupac_fwd_descs (db : PlaceDB) (query : RecordDesc) : List SearchedDesc :=
  db.seq_desc.iupac.flatMap (fun pattern =>
    (kmp_search_with_iupac query.seq pattern.sq).map (fun start =>
      SearchedDesc.new query.id (start + 1) (start + pattern.sq.length + 1) 1
        pattern.id pattern.sq.length pattern.sq pattern.ac pattern.de))

/-- Reverse-strand matches of the degenerate subset
(second par_iter loop of Search::search_element_iupac). -/
def iupac_rev_descs (db : PlaceDB) (query : RecordDesc) : List SearchedDesc :=
  db.seq_desc.iupac.flatMap (fun pattern =>
    (kmp_search_with_iupac (reverse_complement query.seq) pattern.sq).map (fun start =>
      SearchedDesc.new query.id (query.len + 1 - (start + pattern.sq.length))
        (query.len + 1 - start) 0
        pattern.id pattern.sq.length pattern.sq pattern.ac pattern.de))

/-- Search::search_element_exact: forward loop results followed by
reverse-complement loop results.  Always succeeds; presize only sized a
buffer in the source. -/
def search_element_exact (db : PlaceDB) (query : RecordDesc) (_presize : Nat) :
    Except String (List SearchedDesc) :=
  Except.ok (exact_fwd_descs db query ++ exact_rev_descs db query)

/-- Search::search_element_iupac: forward loop results followed by
reverse-complement loop results. -/
def search_element_iupac (db : PlaceDB) (query : RecordDesc) (_presize : Nat) :
    Except String (List SearchedDesc) :=
  Except.ok (iupac_fwd_descs db query ++ iupac_rev_descs db query)

/-- Model of searched.sort_unstable_by(|a, b| a.q_start.cmp(&b.q_start)).
The Rust sort is an unstable comparison sort on the q_start key; it is
modelled by a concrete comparison sort on the same key.  Proofs in this
file use only that the output is a permutation of the input, never the
order of equal keys. -/
def sort_by_q_start (l : List SearchedDesc) : List SearchedDesc :=
  List.insertionSort (fun a b => a.q_start ≤ b.q_start) l

/-- Search::search_elements_single_seq: run the exact and degenerate
searches, concatenate, sort by q_start, and wrap in a single
SearchResult. -/
def search_elements_single_seq (db : PlaceDB) (query : RecordDesc) :
    Except String (List SearchResult) := do
  let res_exact ← search_element_exact db query (query.len / 5)
  let res_iupac ← search_element_iupac db query (query.len / 5)
  let searched := sort_by_q_start (res_exact ++ res_iupac)
  pure [SearchResult.new query.id searched]

/-- The per-query error handling of Search::search_elements, abstracted
over the single-query function f: each query's Ok results extend the
accumulator, an Err is reported (a println in the source, no pure effect)
and skipped, and the batch as a whole always returns Ok. -/
def search_elements_with (f : RecordDesc → Except String (List SearchResult))
    (query : List RecordDesc) : Except String (List SearchResult) :=
  Except.ok (query.foldl (fun res_p seq =>
    match f seq with
    | Except.ok r => res_p ++ r
    | Except.error _ => res_p) [])

/-- Search::search_elements (src/place_search.rs): fold every query through
search_elements_single_seq with the error handling above. -/
def search_elements (db : PlaceDB) (query : List RecordDesc) :
    Except String (List SearchResult) :=
  search_elements_with (search_elements_single_seq db) query

/-- Search::query_elements_by_id (src/place_search.rs): positional batch
lookup through the id index; a hit clones the entry at the stored ordinal
(out-of-range ordinals, which a well-formed index never produces, fall back
to the default entry where Rust would panic). -/
def query_elements_by_id (db : PlaceDB) (query : List String) : List (Option SeqDesc) :=
  query.map (fun id =>
    match db.seq_index.id_index.lookup id with
    | some index => some (db.seq_desc.all.getD index default)
    | none => none)

/-- Search::query_elements_by_ac: positional batch lookup through the
accession index. -/
def query_elements_by_ac (db : PlaceDB) (query : List String) : List (Option SeqDesc) :=
  query.map (fun ac =>
    match db.seq_index.ac_index.lookup ac with
    | some index => some (db.seq_desc.all.getD index default)
    | none => none)

/-! ## Specification-side definitions -/

/-- The literal occurrence predicate: pattern p occurs in text t at the
0-based position x, under case-sensitive character equality. -/
def occursAt (t p : List Char) (x : Nat) : Prop :=
  x + p.length ≤ t.length ∧ ∀ d < p.length, t.getD (x + d) 'A' = p.getD d 'A'

instance occursAt.instDecidable (t p : List Char) (x : Nat) : Decidable (occursAt t p x) := by
  unfold occursAt; infer_instance

/-- All 0-based positions at which p literally occurs in t, ascending. -/
def occList (t p : List Char) : List Nat :=
  (List.range (t.length + 1 - p.length)).filter (fun x => decide (occursAt t p x))

/-- Modelled from the spec (section 4.1): the IUPAC symbol to base-set
table, used to state what the degenerate matcher is claimed to do. -/
def iupacSet (c : Char) : Option (List Char) :=
  if c = 'A' then some ['A']
  else if c = 'C' then some ['C']
  else if c = 'G' then some ['G']
  else if c = 'T' then some ['T']
  else if c = 'R' then some ['A', 'G']
  else if c = 'Y' then some ['C', 'T']
  else if c = 'M' then some ['A', 'C']
  else if c = 'K' then some ['G', 'T']
  else if c = 'S' then some ['G', 'C']
  else if c = 'W' then some ['A', 'T']
  else if c = 'B' then some ['C', 'G', 'T']
  else if c = 'D' then some ['A', 'G', 'T']
  else if c = 'H' then some ['A', 'C', 'T']
  else if c = 'V' then some ['A', 'C', 'G']
  else if c = 'N' then some ['A', 'C', 'G', 'T']
  else none

/-- Modelled from the spec (section 4.3): one position of the claimed
degenerate-match relation — the text character is a member of the IUPAC
set of the motif character, falling back to literal equality only when the
motif character has no table entry. -/
def spec_iupac_match_char (tc pc : Char) : Bool :=
  match iupacSet pc with
  | some s => s.contains tc
  | none => tc == pc

/-- The claimed degenerate-match relation at a window: the window fits and
every offset passes spec_iupac_match_char. -/
def spec_iupac_matches_at (t p : List Char) (i : Nat) : Prop :=
  i + p.length ≤ t.length ∧
    ∀ j < p.length, spec_iupac_match_char (t.getD (i + j) 'A') (p.getD j 'A') = true

/-- The code-level degenerate window predicate: the window fits and every
offset passes is_iupac_match. -/
def iupac_matches_at (t p : List Char) (i : Nat) : Prop :=
  i + p.length ≤ t.length ∧
    ∀ j < p.length, is_iupac_match (t.getD (i + j) 'A') (p.getD j 'A') = true

instance spec_iupac_matches_at.instDecidable (t p : List Char) (i : Nat) :
    Decidable (spec_iupac_matches_at t p i) := by
  unfold spec_iupac_matches_at; infer_instance

instance iupac_matches_at.instDecidable (t p : List Char) (i : Nat) :
    Decidable (iupac_matches_at t p i) := by
  unfold iupac_matches_at; infer_instance

/-- All matches of one query, in sorted order, extracted from the
single-query entry point. -/
def result_matches (db : PlaceDB) (query : RecordDesc) : List SearchedDesc :=
  match search_elements_single_seq db query with
  | Except.ok rs => rs.flatMap (fun r => r.search_descs)
  | Except.error _ => []

/-- The one SearchResult that search_elements_single_seq produces for a
query. -/
def single_res (db : PlaceDB) (query : RecordDesc) : SearchResult :=
  SearchResult.new query.id
    (sort_by_q_start
      ((exact_fwd_descs db query ++ exact_rev_descs db query) ++
        (iupac_fwd_descs db query ++ iupac_rev_descs db query)))

/-! ## Border bookkeeping for the KMP correctness proof -/

/-- c is a border length of the k-prefix of p: the first c characters
reappear as the last c characters of the first k. -/
def isBorderP (p : List Char) (k c : Nat) : Prop :=
  c ≤ k ∧ ∀ d < c, p.getD d 'A' = p.getD (k - c + d) 'A'

/-- Correctness of one lps entry: lps[k] is a border length of the
(k+1)-prefix, is proper, and dominates every proper border of that
prefix. -/
def lpsSpecAt (p : List Char) (lps : List Nat) (k : Nat) : Prop :=
  lps.getD k 0 ≤ k ∧ isBorderP p (k + 1) (lps.getD k 0) ∧
    ∀ c ≤ k, isBorderP p (k + 1) c → c ≤ lps.getD k 0

/-- Correctness of the whole lps array. -/
def lpsSpec (p : List Char) (lps : List Nat) : Prop :=
  lps.length = p.length ∧ ∀ k < p.length, lpsSpecAt p lps k

/-! ## Concrete corpora used by witnesses and counterexamples -/

/-- A corpus entry with only the searched-over fields populated. -/
def mkSeqDesc (id ac de : String) (sq : List Char) : SeqDesc :=
  ⟨id, ac, "", de, [], "", "", "", "", "", "", sq⟩

/-- One-motif corpus whose only (exact) motif is the literal A. -/
def db_A : PlaceDB :=
  ⟨⟨[mkSeqDesc "M1" "AC1" "motif A" ['A']], [], [mkSeqDesc "M1" "AC1" "motif A" ['A']]⟩,
    PlaceIndex.from_descs [mkSeqDesc "M1" "AC1" "motif A" ['A']]⟩

/-- One-motif corpus whose only (exact) motif is the literal T. -/
def db_T : PlaceDB :=
  ⟨⟨[mkSeqDesc "M1" "AC1" "motif T" ['T']], [], [mkSeqDesc "M1" "AC1" "motif T" ['T']]⟩,
    PlaceIndex.from_descs [mkSeqDesc "M1" "AC1" "motif T" ['T']]⟩

/-- A single-query function that fails on queries whose id is bad; used
only to witness the failure-isolation theorem at a concrete input. -/
def f_probe : RecordDesc → Except String (List SearchResult) :=
  fun q => if q.id = "bad" then Except.error "boom" else Except.ok []

/-! ## Basic lemmas -/

lemma complement_char_involution (c : Char) :
    complement_char (complement_char c) = c := by
  by_cases h1 : c = 'A'
  · subst h1; decide
  by_cases h2 : c = 'T'
  · subst h2; decide
  by_cases h3 : c = 'C'
  · subst h3; decide
  by_cases h4 : c = 'G'
  · subst h4; decide
  simp [complement_char, h1, h2, h3, h4]

lemma complement_char_fix (c : Char)
    (h : ¬(c = 'A' ∨ c = 'C' ∨ c = 'G' ∨ c = 'T')) : complement_char c = c := by
  push_neg at h
  simp [complement_char, h.1, h.2.1, h.2.2.1, h.2.2.2]

lemma reverse_complement_reverse_complement (s : List Char) :
    reverse_complement (reverse_complement s) = s := by
  have h2 : ∀ l : List Char,
      List.map complement_char (List.map complement_char l) = l := by
    intro l
    induction l with
    | nil => rfl
    | cons a t ih => simp [complement_char_involution, ih]
  unfold reverse_complement
  rw [List.map_reverse, h2, List.reverse_reverse]

/-! ## The degenerate-match bridge: code table versus spec table -/

lemma is_iupac_match_iff (tc pc : Char) :
    is_iupac_match tc pc = true ↔ (tc = pc ∨ spec_iupac_match_char tc pc = true) := by
  by_cases h : pc = tc
  · subst h; simp [is_iupac_match]
  by_cases h1 : pc = 'A'
  · subst h1
    have l1 : init_iupac_map.lookup 'A' = some ['A'] := by decide
    have l3 : iupacSet 'A' = some ['A'] := by decide
    rw [is_iupac_match, if_neg h, l1, spec_iupac_match_char, l3]
    simp +decide [List.contains_iff_exists_mem_beq, beq_iff_eq]
    aesop
  by_cases h2 : pc = 'C'
  · subst h2
    have l1 : init_iupac_map.lookup 'C' = some ['C'] := by decide
    have l3 : iupacSet 'C' = some ['C'] := by decide
    rw [is_iupac_match, if_neg h, l1, spec_iupac_match_char, l3]
    simp +decide [List.contains_iff_exists_mem_beq, beq_iff_eq]
    aesop
  by_cases h3 : pc = 'G'
  · subst h3
    have l1 : init_iupac_map.lookup 'G' = some ['G'] := by decide
    have l3 : iupacSet 'G' = some ['G'] := by decide
    rw [is_iupac_match, if_neg h, l1, spec_iupac_match_char, l3]
    simp +decide [List.contains_iff_exists_mem_beq, beq_iff_eq]
    aesop
  by_cases h4 : pc = 'T'
  · subst h4
    have l1 : init_iupac_map.lookup 'T' = some ['T'] := by decide
    have l3 : iupacSet 'T' = some ['T'] := by decide
    rw [is_iupac_match, if_neg h, l1, spec_iupac_match_char, l3]
    simp +decide [List.contains_iff_exists_mem_beq, beq_iff_eq]
    aesop
  by_cases h5 : pc = 'R'
  · subst h5
    have l1 : init_iupac_map.lookup 'R' = some ['[', 'A', 'G', ']'] := by decide
    have l2 : stripBrackets ['[', 'A', 'G', ']'] = ['A', 'G'] := by decide
    have l3 : iupacSet 'R' = some ['A', 'G'] := by decide
    rw [is_iupac_match, if_neg h, l1, spec_iupac_match_char, l3]
    simp +decide [List.any_eq_true, l2, List.contains_iff_exists_mem_beq]
    aesop
  by_cases h6 : pc = 'Y'
  · subst h6
    have l1 : init_iupac_map.lookup 'Y' = some ['[', 'C', 'T', ']'] := by decide
    have l2 : stripBrackets ['[', 'C', 'T', ']'] = ['C', 'T'] := by decide
    have l3 : iupacSet 'Y' = some ['C', 'T'] := by decide
    rw [is_iupac_match, if_neg h, l1, spec_iupac_match_char, l3]
    simp +decide [List.any_eq_true, l2, List.contains_iff_exists_mem_beq]
    aesop
  by_cases h7 : pc = 'M'
  · subst h7
    have l1 : init_iupac_map.lookup 'M' = some ['[', 'A', 'C', ']'] := by decide
    have l2 : stripBrackets ['[', 'A', 'C', ']'] = ['A', 'C'] := by decide
    have l3 : iupacSet 'M' = some ['A', 'C'] := by decide
    rw [is_iupac_match, if_neg h, l1, spec_iupac_match_char, l3]
    simp +decide [List.any_eq_true, l2, List.contains_iff_exists_mem_beq]
    aesop
  by_cases h8 : pc = 'K'
  · subst h8
    have l1 : init_iupac_map.lookup 'K' = some ['[', 'G', 'T', ']'] := by decide
    have l2 : stripBrackets ['[', 'G', 'T', ']'] = ['G', 'T'] := by decide
    have l3 : iupacSet 'K' = some ['G', 'T'] := by decide
    rw [is_iupac_match, if_neg h, l1, spec_iupac_match_char, l3]
    simp +decide [List.any_eq_true, l2, List.contains_iff_exists_mem_beq]
    aesop
  by_cases h9 : pc = 'S'
  · subst h9
    have l1 : init_iupac_map.lookup 'S' = some ['[', 'G', 'C', ']'] := by decide
    have l2 : stripBrackets ['[', 'G', 'C', ']'] = ['G', 'C'] := by decide
    have l3 : iupacSet 'S' = some ['G', 'C'] := by decide
    rw [is_iupac_match, if_neg h, l1, spec_iupac_match_char, l3]
    simp +decide [List.any_eq_true, l2, List.contains_iff_exists_mem_beq]
    aesop
  by_cases h10 : pc = 'W'
  · subst h10
    have l1 : init_iupac_map.lookup 'W' = some ['[', 'A', 'T', ']'] := by decide
    have l2 : stripBrackets ['[', 'A', 'T', ']'] = ['A', 'T'] := by decide
    have l3 : iupacSet 'W' = some ['A', 'T'] := by decide
    rw [is_iupac_match, if_neg h, l1, spec_iupac_match_char, l3]
    simp +decide [List.any_eq_true, l2, List.contains_iff_exists_mem_beq]
    aesop
  by_cases h11 : pc = 'B'
  · subst h11
    have l1 : init_iupac_map.lookup 'B' = some ['[', 'C', 'G', 'T', ']'] := by decide
    have l2 : stripBrackets ['[', 'C', 'G', 'T', ']'] = ['C', 'G', 'T'] := by decide
    have l3 : iupacSet 'B' = some ['C', 'G', 'T'] := by decide
    rw [is_iupac_match, if_neg h, l1, spec_iupac_match_char, l3]
    simp +decide [List.any_eq_true, l2, List.contains_iff_exists_mem_beq]
    aesop
  by_cases h12 : pc = 'D'
  · subst h12
    have l1 : init_iupac_map.lookup 'D' = some ['[', 'A', 'G', 'T', ']'] := by decide
    have l2 : stripBrackets ['[', 'A', 'G', 'T', ']'] = ['A', 'G', 'T'] := by decide
    have l3 : iupacSet 'D' = some ['A', 'G', 'T'] := by decide
    rw [is_iupac_match, if_neg h, l1, spec_iupac_match_char, l3]
    simp +decide [List.any_eq_true, l2, List.contains_iff_exists_mem_beq]
    aesop
  by_cases h13 : pc = 'H'
  · subst h13
    have l1 : init_iupac_map.lookup 'H' = some ['[', 'A', 'C', 'T', ']'] := by decide
    have l2 : stripBrackets ['[', 'A', 'C', 'T', ']'] = ['A', 'C', 'T'] := by decide
    have l3 : iupacSet 'H' = some ['A', 'C', 'T'] := by decide
    rw [is_iupac_match, if_neg h, l1, spec_iupac_match_char, l3]
    simp +decide [List.any_eq_true, l2, List.contains_iff_exists_mem_beq]
    aesop
  by_cases h14 : pc = 'V'
  · subst h14
    have l1 : init_iupac_map.lookup 'V' = some ['[', 'A', 'C', 'G', ']'] := by decide
    have l2 : stripBrackets ['[', 'A', 'C', 'G', ']'] = ['A', 'C', 'G'] := by decide
    have l3 : iupacSet 'V' = some ['A', 'C', 'G'] := by decide
    rw [is_iupac_match, if_neg h, l1, spec_iupac_match_char, l3]
    simp +decide [List.any_eq_true, l2, List.contains_iff_exists_mem_beq]
    aesop
  by_cases h15 : pc = 'N'
  · subst h15
    have l1 : init_iupac_map.lookup 'N' = some ['[', 'A', 'C', 'G', 'T', ']'] := by decide
    have l2 : stripBrackets ['[', 'A', 'C', 'G', 'T', ']'] = ['A', 'C', 'G', 'T'] := by decide
    have l3 : iupacSet 'N' = some ['A', 'C', 'G', 'T'] := by decide
    rw [is_iupac_match, if_neg h, l1, spec_iupac_match_char, l3]
    simp +decide [List.any_eq_true, l2, List.contains_iff_exists_mem_beq]
    aesop
  have l1 : init_iupac_map.lookup pc = none := by
    have b1 : (pc == 'A') = false := beq_eq_false_iff_ne.mpr h1
    have b2 : (pc == 'C') = false := beq_eq_false_iff_ne.mpr h2
    have b3 : (pc == 'G') = false := beq_eq_false_iff_ne.mpr h3
    have b4 : (pc == 'T') = false := beq_eq_false_iff_ne.mpr h4
    have b5 : (pc == 'R') = false := beq_eq_false_iff_ne.mpr h5
    have b6 : (pc == 'Y') = false := beq_eq_false_iff_ne.mpr h6
    have b7 : (pc == 'M') = false := beq_eq_false_iff_ne.mpr h7
    have b8 : (pc == 'K') = false := beq_eq_false_iff_ne.mpr h8
    have b9 : (pc == 'S') = false := beq_eq_false_iff_ne.mpr h9
    have b10 : (pc == 'W') = false := beq_eq_false_iff_ne.mpr h10
    have b11 : (pc == 'B') = false := beq_eq_false_iff_ne.mpr h11
    have b12 : (pc == 'D') = false := beq_eq_false_iff_ne.mpr h12
    have b13 : (pc == 'H') = false := beq_eq_false_iff_ne.mpr h13
    have b14 : (pc == 'V') = false := beq_eq_false_iff_ne.mpr h14
    have b15 : (pc == 'N') = false := beq_eq_false_iff_ne.mpr h15
    simp [init_iupac_map, List.lookup, b1, b2, b3, b4, b5, b6, b7, b8, b9, b10, b11, b12, b13, b14, b15]
  have l3 : iupacSet pc = none := by
    simp [iupacSet, h1, h2, h3, h4, h5, h6, h7, h8, h9, h10, h11, h12, h13, h14, h15]
  rw [is_iupac_match, if_neg h, l1, spec_iupac_match_char, l3]
  have hne : ¬ tc = pc := fun he => h he.symm
  simp [beq_iff_eq, hne]

/-! ## Membership characterization of the degenerate matcher -/

lemma mem_kmp_search_with_iupac (t p : List Char) (hp : p ≠ []) (i : Nat) :
    i ∈ kmp_search_with_iupac t p ↔ iupac_matches_at t p i := by
  unfold kmp_search_with_iupac iupac_matches_at
  have hpe : ¬(p.isEmpty = true) := by simp [List.isEmpty_iff, hp]
  rw [if_neg hpe]
  by_cases hmn : p.length > t.length
  · rw [if_pos hmn]
    simp only [List.not_mem_nil, false_iff]
    rintro ⟨hle, -⟩
    omega
  · rw [if_neg hmn]
    simp only [List.mem_filter, List.mem_range, List.all_eq_true]
    constructor
    · rintro ⟨hir, hall⟩
      exact ⟨by omega, fun j hj => hall j hj⟩
    · rintro ⟨hle, hall⟩
      exact ⟨by omega, fun j hj => hall j hj⟩

lemma is_iupac_sq_ne_nil {p : List Char} (hp : is_iupac_sq p = true) : p ≠ [] := by
  intro he
  subst he
  simp [is_iupac_sq] at hp

/-! ## Batch entry point lemmas -/

lemma search_foldl_eq (f : RecordDesc → Except String (List SearchResult))
    (qs : List RecordDesc) (acc : List SearchResult) :
    (qs.foldl (fun res_p seq => match f seq with
      | Except.ok r => res_p ++ r
      | Except.error _ => res_p) acc) =
      acc ++ qs.flatMap (fun q => match f q with
        | Except.ok r => r
        | Except.error _ => []) := by
  induction qs generalizing acc with
  | nil => simp
  | cons q qs ih =>
    cases hfq : f q with
    | ok r => simp [hfq, ih]
    | error e => simp [hfq, ih]

lemma search_elements_single_seq_eq (db : PlaceDB) (q : RecordDesc) :
    search_elements_single_seq db q = Except.ok [single_res db q] := rfl

/-! ## Claim theorems: C3, C7, C9, C10 -/

/-- Claim C3, counterexample: the claim says the degenerate matcher reports
a match at i iff every text character is a member of the IUPAC base set of
the motif character (literal equality only for characters with no table
entry).  On text R and motif R the code reports a match at 0, yet R is not
a member of the IUPAC set of R, which is the set containing A and G. -/
theorem c3_counterexample :
    0 ∈ kmp_search_with_iupac ['R'] ['R'] ∧ ¬ spec_iupac_matches_at ['R'] ['R'] 0 := by
  decide

/-- Claim C3, amended: the degenerate matcher reports a match at 0-based
position i iff the window fits and, for every offset j, the text character
equals the motif character literally OR is a member of the IUPAC base set
of the motif character (the fixed 15-symbol table; a motif character with
no table entry still matches only by literal equality, since its set is
empty). -/
theorem c3_amended (t p : List Char) (hp : is_iupac_sq p = true) (i : Nat) :
    i ∈ kmp_search_with_iupac t p ↔
      (i + p.length ≤ t.length ∧ ∀ j < p.length,
        (t.getD (i + j) 'A' = p.getD j 'A' ∨
          spec_iupac_match_char (t.getD (i + j) 'A') (p.getD j 'A') = true)) := by
  rw [mem_kmp_search_with_iupac t p (is_iupac_sq_ne_nil hp) i]
  unfold iupac_matches_at
  constructor
  · rintro ⟨hle, hall⟩
    exact ⟨hle, fun j hj => (is_iupac_match_iff _ _).mp (hall j hj)⟩
  · rintro ⟨hle, hall⟩
    exact ⟨hle, fun j hj => (is_iupac_match_iff _ _).mpr (hall j hj)⟩

/-- Witness for c3_amended at text A, motif R, position 0. -/
theorem c3_amended_witness :
    is_iupac_sq ['R'] = true ∧
      (0 ∈ kmp_search_with_iupac ['A'] ['R'] ↔
        (0 + (['R'] : List Char).length ≤ (['A'] : List Char).length ∧
          ∀ j < (['R'] : List Char).length,
            ((['A'] : List Char).getD (0 + j) 'A' = (['R'] : List Char).getD j 'A' ∨
              spec_iupac_match_char ((['A'] : List Char).getD (0 + j) 'A')
                ((['R'] : List Char).getD j 'A') = true))) :=
  ⟨by decide, c3_amended ['A'] ['R'] (by decide) 0⟩

/-- Claim C7: reverse_complement reverses and complements A with T and C
with G; applying it twice to a string over A, C, G, T returns the original
string, and every character outside that alphabet passes through unchanged
(so it is a fixed point of the double application). -/
theorem c7_reverse_complement :
    (∀ s : List Char, (∀ x ∈ s, x = 'A' ∨ x = 'C' ∨ x = 'G' ∨ x = 'T') →
      reverse_complement (reverse_complement s) = s) ∧
    (∀ c : Char, ¬(c = 'A' ∨ c = 'C' ∨ c = 'G' ∨ c = 'T') →
      complement_char c = c ∧ reverse_complement (reverse_complement [c]) = [c]) :=
  ⟨fun s _ => reverse_complement_reverse_complement s,
   fun c hc => ⟨complement_char_fix c hc, reverse_complement_reverse_complement [c]⟩⟩

/-- Witness for c7_reverse_complement at ACGT and the non-nucleotide X. -/
theorem c7_witness :
    reverse_complement (reverse_complement ['A', 'C', 'G', 'T']) = ['A', 'C', 'G', 'T'] ∧
      (complement_char 'X' = 'X' ∧ reverse_complement (reverse_complement ['X']) = ['X']) :=
  ⟨c7_reverse_complement.1 ['A', 'C', 'G', 'T'] (by decide),
   c7_reverse_complement.2 'X' (by decide)⟩

/-- Claim C9: in the batch entry point, a failing query contributes nothing
to the output (its SearchResult is absent), every other query's results
appear unchanged in input order, and the batch itself always returns Ok —
it is never aborted by a single failure. -/
theorem c9_batch_isolation (f : RecordDesc → Except String (List SearchResult)) :
    (∀ query : List RecordDesc,
      search_elements_with f query = Except.ok (query.flatMap (fun q =>
        match f q with
        | Except.ok r => r
        | Except.error _ => []))) ∧
    (∀ (qs1 qs2 : List RecordDesc) (q : RecordDesc) (e : String),
      f q = Except.error e →
      search_elements_with f (qs1 ++ q :: qs2) = search_elements_with f (qs1 ++ qs2)) := by
  constructor
  · intro query
    unfold search_elements_with
    rw [search_foldl_eq]
    simp
  · intro qs1 qs2 q e hfe
    unfold search_elements_with
    rw [search_foldl_eq, search_foldl_eq]
    simp [hfe]

/-- Witness for c9_batch_isolation: dropping one failing query from a batch
leaves the batch output of the remaining queries unchanged. -/
theorem c9_witness :
    search_elements_with f_probe ([] ++ RecordDesc.new "bad" ['A'] :: []) =
      search_elements_with f_probe ([] ++ []) :=
  (c9_batch_isolation f_probe).2 [] [] (RecordDesc.new "bad" ['A']) "boom" rfl

/-- Claim C10: search_elements always returns Ok, and its output has
exactly one SearchResult per input query, in input order (the result at
each position carries the id of the query at that position). -/
theorem c10_batch_shape (db : PlaceDB) :
    (∀ query : List RecordDesc,
      search_elements db query = Except.ok (query.map (fun q => single_res db q))) ∧
    (∀ query : List RecordDesc,
      (query.map (fun q => single_res db q)).length = query.length) ∧
    (∀ q : RecordDesc, (single_res db q).id = q.id) := by
  refine ⟨fun query => ?_, fun query => List.length_map query _, fun q => rfl⟩
  unfold search_elements search_elements_with
  rw [search_foldl_eq]
  simp only [search_elements_single_seq_eq, List.nil_append, Except.ok.injEq]
  induction query with
  | nil => rfl
  | cons q qs ih => simp [ih]

/-! ## Lookup service lemmas -/

lemma foldl_cons_eq_reverse_append {α β : Type} (g : α → β) (l : List α)
    (acc : List β) :
    l.foldl (fun m x => g x :: m) acc = (l.map g).reverse ++ acc := by
  induction l generalizing acc with
  | nil => simp
  | cons x xs ih => simp [ih]

lemma lookup_of_mem_nodup {l : List (String × Nat)}
    (hn : (l.map Prod.fst).Nodup) {k : String} {v : Nat} (hm : (k, v) ∈ l) :
    l.lookup k = some v := by
  induction l with
  | nil => simp at hm
  | cons p ps ih =>
    obtain ⟨k', v'⟩ := p
    simp only [List.map_cons, List.nodup_cons] at hn
    rcases List.mem_cons.mp hm with he | hm2
    · obtain ⟨hk, hv⟩ := Prod.mk.injEq .. ▸ he
      subst hk
      subst hv
      simp [List.lookup]
    · have hk2 : k ≠ k' := by
        intro he2
        subst he2
        exact hn.1 (List.mem_map.mpr ⟨(k, v), hm2, rfl⟩)
      simp only [List.lookup, beq_eq_false_iff_ne.mpr hk2]
      exact ih hn.2 hm2

lemma mem_of_lookup_eq_some {l : List (String × Nat)} {k : String} {v : Nat}
    (h : l.lookup k = some v) : (k, v) ∈ l := by
  induction l with
  | nil => simp [List.lookup] at h
  | cons p ps ih =>
    obtain ⟨k', v'⟩ := p
    by_cases he : k = k'
    · subst he
      simp [List.lookup] at h
      subst h
      exact List.mem_cons_self ..
    · simp only [List.lookup, beq_eq_false_iff_ne.mpr he] at h
      exact List.mem_cons_of_mem _ (ih h)

lemma from_descs_id_index_eq (descs : List SeqDesc) :
    (PlaceIndex.from_descs descs).id_index =
      (descs.enum.map (fun pd => (pd.2.id, pd.1))).reverse := by
  have h := foldl_cons_eq_reverse_append
    (fun pd : Nat × SeqDesc => (pd.2.id, pd.1)) descs.enum ([] : List (String × Nat))
  simpa [PlaceIndex.from_descs] using h

lemma from_descs_ac_index_eq (descs : List SeqDesc) :
    (PlaceIndex.from_descs descs).ac_index =
      (descs.enum.map (fun pd => (pd.2.ac, pd.1))).reverse := by
  have h := foldl_cons_eq_reverse_append
    (fun pd : Nat × SeqDesc => (pd.2.ac, pd.1)) descs.enum ([] : List (String × Nat))
  simpa [PlaceIndex.from_descs] using h

lemma from_descs_id_keys (descs : List SeqDesc) :
    (PlaceIndex.from_descs descs).id_index.map Prod.fst =
      (descs.map SeqDesc.id).reverse := by
  rw [from_descs_id_index_eq, List.map_reverse]
  congr 1
  rw [List.map_map]
  have : (Prod.fst ∘ fun pd : Nat × SeqDesc => (pd.2.id, pd.1)) =
      (SeqDesc.id ∘ Prod.snd) := rfl
  rw [this, ← List.map_map, List.enum_map_snd]

lemma from_descs_ac_keys (descs : List SeqDesc) :
    (PlaceIndex.from_descs descs).ac_index.map Prod.fst =
      (descs.map SeqDesc.ac).reverse := by
  rw [from_descs_ac_index_eq, List.map_reverse]
  congr 1
  rw [List.map_map]
  have : (Prod.fst ∘ fun pd : Nat × SeqDesc => (pd.2.ac, pd.1)) =
      (SeqDesc.ac ∘ Prod.snd) := rfl
  rw [this, ← List.map_map, List.enum_map_snd]

lemma from_descs_id_lookup (descs : List SeqDesc)
    (hn : (descs.map SeqDesc.id).Nodup) (p : Nat) (hp : p < descs.length) :
    (PlaceIndex.from_descs descs).id_index.lookup (descs[p].id) = some p := by
  apply lookup_of_mem_nodup
  · rw [from_descs_id_keys]
    exact List.nodup_reverse.mpr hn
  · rw [from_descs_id_index_eq]
    rw [List.mem_reverse]
    apply List.mem_map.mpr
    refine ⟨(p, descs[p]), ?_, rfl⟩
    have hpe : p < descs.enum.length := by simpa using hp
    have he := List.getElem_enum descs p hpe
    rw [← he]
    exact List.getElem_mem hpe

lemma from_descs_ac_lookup (descs : List SeqDesc)
    (hn : (descs.map SeqDesc.ac).Nodup) (p : Nat) (hp : p < descs.length) :
    (PlaceIndex.from_descs descs).ac_index.lookup (descs[p].ac) = some p := by
  apply lookup_of_mem_nodup
  · rw [from_descs_ac_keys]
    exact List.nodup_reverse.mpr hn
  · rw [from_descs_ac_index_eq]
    rw [List.mem_reverse]
    apply List.mem_map.mpr
    refine ⟨(p, descs[p]), ?_, rfl⟩
    have hpe : p < descs.enum.length := by simpa using hp
    have he := List.getElem_enum descs p hpe
    rw [← he]
    exact List.getElem_mem hpe

/-- Claim C8: batch lookups by id and accession are positional.  The
output always has the same length as the key list; the entry at each
position is determined by the key at that position alone (full motif copy
when the key is in the index, the explicit absent marker otherwise, so
duplicates, absences and order carry over 1:1); under the index built by
PlaceIndex::from_descs with unique ids and accessions, every corpus motif
round-trips, and an absent key yields the singleton absent marker. -/
theorem c8_lookup :
    (∀ (db : PlaceDB) (keys : List String),
      (query_elements_by_id db keys).length = keys.length ∧
      (query_elements_by_ac db keys).length = keys.length) ∧
    (∀ (db : PlaceDB) (keys : List String) (k : Nat), k < keys.length →
      (query_elements_by_id db keys).getD k none =
        (match db.seq_index.id_index.lookup (keys.getD k "") with
          | some index => some (db.seq_desc.all.getD index default)
          | none => none) ∧
      (query_elements_by_ac db keys).getD k none =
        (match db.seq_index.ac_index.lookup (keys.getD k "") with
          | some index => some (db.seq_desc.all.getD index default)
          | none => none)) ∧
    (∀ db : PlaceDB, db.seq_index = PlaceIndex.from_descs db.seq_desc.all →
      (db.seq_desc.all.map SeqDesc.id).Nodup →
      (db.seq_desc.all.map SeqDesc.ac).Nodup →
      ∀ m ∈ db.seq_desc.all,
        query_elements_by_id db [m.id] = [some m] ∧
        query_elements_by_ac db [m.ac] = [some m]) ∧
    (∀ (db : PlaceDB) (k : String),
      (db.seq_index.id_index.lookup k = none →
        query_elements_by_id db [k] = [none]) ∧
      (db.seq_index.ac_index.lookup k = none →
        query_elements_by_ac db [k] = [none])) := by
  refine ⟨?_, ?_, ?_, ?_⟩
  · intro db keys
    constructor <;> simp [query_elements_by_id, query_elements_by_ac]
  · intro db keys k hk
    have hached : keys.getD k "" = keys[k] := List.getD_eq_getElem keys "" hk
    constructor
    · have hlen : k < (query_elements_by_id db keys).length := by
        simpa [query_elements_by_id] using hk
      rw [List.getD_eq_getElem _ none hlen]
      unfold query_elements_by_id
      rw [List.getElem_map]
      rw [hached]
    · have hlen : k < (query_elements_by_ac db keys).length := by
        simpa [query_elements_by_ac] using hk
      rw [List.getD_eq_getElem _ none hlen]
      unfold query_elements_by_ac
      rw [List.getElem_map]
      rw [hached]
  · intro db hix hnid hnac m hm
    obtain ⟨p, hp, he⟩ := List.mem_iff_getElem.mp hm
    constructor
    · have hl : db.seq_index.id_index.lookup m.id = some p := by
        rw [hix, ← he]
        exact from_descs_id_lookup db.seq_desc.all hnid p hp
      simp only [query_elements_by_id, List.map_cons, List.map_nil, hl]
      rw [List.getD_eq_getElem _ _ hp, he]
    · have hl : db.seq_index.ac_index.lookup m.ac = some p := by
        rw [hix, ← he]
        exact from_descs_ac_lookup db.seq_desc.all hnac p hp
      simp only [query_elements_by_ac, List.map_cons, List.map_nil, hl]
      rw [List.getD_eq_getElem _ _ hp, he]
  · intro db k
    constructor
    · intro h
      simp [query_elements_by_id, h]
    · intro h
      simp [query_elements_by_ac, h]

/-- Witness for c8_lookup: the round-trip on the one-motif corpus db_A and
a miss on an unknown key. -/
theorem c8_witness :
    (query_elements_by_id db_A [(mkSeqDesc "M1" "AC1" "motif A" ['A']).id] =
        [some (mkSeqDesc "M1" "AC1" "motif A" ['A'])] ∧
      query_elements_by_ac db_A [(mkSeqDesc "M1" "AC1" "motif A" ['A']).ac] =
        [some (mkSeqDesc "M1" "AC1" "motif A" ['A'])]) ∧
      query_elements_by_id db_A ["GHOST"] = [none] :=
  ⟨c8_lookup.2.2.1 db_A rfl (by decide) (by decide)
      (mkSeqDesc "M1" "AC1" "motif A" ['A']) (by decide),
    (c8_lookup.2.2.2 db_A "GHOST").1 (by decide)⟩

/-! ## List getD and set helpers for the lps array -/

lemma getD_set_self {l : List Nat} {i : Nat} (v : Nat) (h : i < l.length) :
    (l.set i v).getD i 0 = v := by
  rw [List.getD_eq_getElem?_getD, List.getElem?_set]
  simp [h]

lemma getD_set_ne {l : List Nat} {i k : Nat} (v : Nat) (h : k ≠ i) :
    (l.set i v).getD k 0 = l.getD k 0 := by
  rw [List.getD_eq_getElem?_getD, List.getElem?_set,
    if_neg (fun he => h he.symm), ← List.getD_eq_getElem?_getD]

lemma getD_replicate {n k : Nat} : (List.replicate n (0 : Nat)).getD k 0 = 0 := by
  rw [List.getD_eq_getElem?_getD]
  rcases Nat.lt_or_ge k n with h | h
  · rw [List.getElem?_replicate]
    simp [h]
  · rw [List.getElem?_eq_none (by simpa using h)]
    rfl

/-! ## Border lemmas -/

lemma border_zero (p : List Char) (k : Nat) : isBorderP p k 0 :=
  ⟨Nat.zero_le _, fun d hd => absurd hd (Nat.not_lt_zero d)⟩

lemma border_extend {p : List Char} {k c : Nat} (h : isBorderP p k c)
    (hc : p.getD c 'A' = p.getD k 'A') : isBorderP p (k + 1) (c + 1) := by
  obtain ⟨hck, hb⟩ := h
  refine ⟨by omega, fun d hd => ?_⟩
  have hidx : k + 1 - (c + 1) + d = k - c + d := by omega
  rw [hidx]
  rcases Nat.lt_or_ge d c with hdc | hdc
  · exact hb d hdc
  · have hdc2 : d = c := by omega
    rw [hdc2]
    have he : k - c + c = k := by omega
    rw [he]
    exact hc

lemma border_restrict {p : List Char} {k c : Nat}
    (h : isBorderP p (k + 1) (c + 1)) : isBorderP p k c := by
  obtain ⟨hck, hb⟩ := h
  refine ⟨by omega, fun d hd => ?_⟩
  have hidx : k - c + d = k + 1 - (c + 1) + d := by omega
  rw [hidx]
  exact hb d (by omega)

lemma border_last {p : List Char} {k c : Nat}
    (h : isBorderP p (k + 1) (c + 1)) : p.getD c 'A' = p.getD k 'A' := by
  obtain ⟨hck, hb⟩ := h
  have := hb c (by omega)
  have hidx : k + 1 - (c + 1) + c = k := by omega
  rwa [hidx] at this

lemma border_trans {p : List Char} {i j c : Nat} (h1 : isBorderP p j c)
    (h2 : isBorderP p i j) : isBorderP p i c := by
  obtain ⟨hcj, hb1⟩ := h1
  obtain ⟨hji, hb2⟩ := h2
  refine ⟨by omega, fun d hd => ?_⟩
  have e1 := hb1 d hd
  have e2 := hb2 (j - c + d) (by omega)
  have hidx : i - j + (j - c + d) = i - c + d := by omega
  rw [hidx] at e2
  rw [e1]
  exact e2

lemma border_of_le {p : List Char} {i c ln : Nat} (h1 : isBorderP p i c)
    (h2 : isBorderP p i ln) (hle : c ≤ ln) : isBorderP p ln c := by
  obtain ⟨hci, hb1⟩ := h1
  obtain ⟨hli, hb2⟩ := h2
  refine ⟨hle, fun d hd => ?_⟩
  have e2 := hb2 (ln - c + d) (by omega)
  have hidx : i - ln + (ln - c + d) = i - c + d := by omega
  rw [hidx] at e2
  rw [hb1 d hd, ← e2]

lemma lpsSpecAt_congr {p : List Char} {lps lps' : List Nat} {k : Nat}
    (h : lps'.getD k 0 = lps.getD k 0) (hs : lpsSpecAt p lps k) :
    lpsSpecAt p lps' k := by
  simp only [lpsSpecAt, h]
  exact hs

/-! ## Correctness of compute_lps -/

lemma lpsLoop_spec (p : List Char) :
    ∀ (fuel : Nat) (lps : List Nat) (len i : Nat),
      2 * (p.length - i) + len < fuel →
      lps.length = p.length →
      len < i →
      (∀ k, k < i → k < p.length → lpsSpecAt p lps k) →
      isBorderP p i len →
      (∀ d, 1 ≤ d → d ≤ i → isBorderP p (i + 1) d → d ≤ len + 1) →
      lpsSpec p (lpsLoop p lps len i fuel) := by
  intro fuel
  induction fuel with
  | zero =>
    intro lps len i hf
    exact absurd hf (by omega)
  | succ f ih =>
    intro lps len i hf hlen hli hcomp hbord hM
    simp only [lpsLoop]
    by_cases h1 : i < p.length
    case neg =>
      rw [if_neg h1]
      exact ⟨hlen, fun k hk => hcomp k (by omega) hk⟩
    case pos =>
      rw [if_pos h1]
      by_cases h2 : p.getD i 'A' = p.getD len 'A'
      case pos =>
        rw [if_pos h2]
        have hilps : i < lps.length := by omega
        have hset : (lps.set i (len + 1)).getD i 0 = len + 1 := getD_set_self _ hilps
        have hkeep : ∀ k, k ≠ i → (lps.set i (len + 1)).getD k 0 = lps.getD k 0 :=
          fun k hk => getD_set_ne _ hk
        have hbord2 : isBorderP p (i + 1) (len + 1) := border_extend hbord h2.symm
        have hspec_i : lpsSpecAt p (lps.set i (len + 1)) i := by
          refine ⟨?_, ?_, ?_⟩
          · rw [hset]; omega
          · rw [hset]; exact hbord2
          · intro c hc hb
            rw [hset]
            rcases Nat.eq_zero_or_pos c with h0 | h0
            · omega
            · exact hM c h0 hc hb
        have hcomp' : ∀ k, k < i + 1 → k < p.length →
            lpsSpecAt p (lps.set i (len + 1)) k := by
          intro k hk hkn
          rcases Nat.lt_or_ge k i with hki | hki
          · exact lpsSpecAt_congr (hkeep k (by omega)) (hcomp k hki hkn)
          · have hke : k = i := by omega
            subst hke
            exact hspec_i
        have hM' : ∀ d, 1 ≤ d → d ≤ i + 1 → isBorderP p (i + 1 + 1) d →
            d ≤ (len + 1) + 1 := by
          intro d hd1 hdi hb
          obtain ⟨d', rfl⟩ : ∃ d', d = d' + 1 := ⟨d - 1, by omega⟩
          have hb' : isBorderP p (i + 1) d' := border_restrict hb
          rcases Nat.eq_zero_or_pos d' with h0 | h0
          · omega
          · have hd2 := hspec_i.2.2 d' (by omega) hb'
            rw [hset] at hd2
            omega
        exact ih (lps.set i (len + 1)) (len + 1) (i + 1) (by omega)
          (by rw [List.length_set]; exact hlen) (by omega) hcomp' hbord2 hM'
      case neg =>
        rw [if_neg h2]
        by_cases h3 : len ≠ 0
        case pos =>
          rw [if_pos h3]
          have hlen1i : len - 1 < i := by omega
          have hlen1n : len - 1 < p.length := by omega
          have hsp := hcomp (len - 1) hlen1i hlen1n
          have hl2len : lps.getD (len - 1) 0 ≤ len - 1 := hsp.1
          have hlb : len - 1 + 1 = len := by omega
          have hlenb : isBorderP p len (lps.getD (len - 1) 0) := by
            have hb := hsp.2.1
            rwa [hlb] at hb
          have hbord' : isBorderP p i (lps.getD (len - 1) 0) :=
            border_trans hlenb hbord
          have hM' : ∀ d, 1 ≤ d → d ≤ i → isBorderP p (i + 1) d →
              d ≤ lps.getD (len - 1) 0 + 1 := by
            intro d hd1 hdi hb
            have hdlen : d ≤ len + 1 := hM d hd1 hdi hb
            have hdlen2 : d ≤ len := by
              rcases Nat.lt_or_ge d (len + 1) with h | h
              · omega
              · exfalso
                have hde : d = len + 1 := by omega
                rw [hde] at hb
                have hlast := border_last hb
                exact h2 hlast.symm
            rcases Nat.lt_or_ge (lps.getD (len - 1) 0 + 1) d with hgt | hle2
            · exfalso
              obtain ⟨d', rfl⟩ : ∃ d', d = d' + 1 := ⟨d - 1, by omega⟩
              have hb' : isBorderP p i d' := border_restrict hb
              have hbl : isBorderP p len d' := border_of_le hb' hbord (by omega)
              have hbl2 : isBorderP p (len - 1 + 1) d' := by rw [hlb]; exact hbl
              have hmax := hsp.2.2 d' (by omega) hbl2
              omega
            · exact hle2
          exact ih lps (lps.getD (len - 1) 0) i (by omega) hlen (by omega)
            hcomp hbord' hM'
        case neg =>
          rw [if_neg h3]
          have h30 : len = 0 := by omega
          subst h30
          have hilps : i < lps.length := by omega
          have hset : (lps.set i 0).getD i 0 = 0 := getD_set_self _ hilps
          have hkeep : ∀ k, k ≠ i → (lps.set i 0).getD k 0 = lps.getD k 0 :=
            fun k hk => getD_set_ne _ hk
          have hspec_i : lpsSpecAt p (lps.set i 0) i := by
            refine ⟨?_, ?_, ?_⟩
            · rw [hset]; omega
            · rw [hset]; exact border_zero p (i + 1)
            · intro c hc hb
              rw [hset]
              rcases Nat.eq_zero_or_pos c with h0 | h0
              · omega
              · have hc1 : c ≤ 0 + 1 := hM c h0 hc hb
                have hce : c = 1 := by omega
                rw [hce] at hb
                have hlast := border_last (c := 0) hb
                exact absurd hlast.symm h2
          have hcomp' : ∀ k, k < i + 1 → k < p.length →
              lpsSpecAt p (lps.set i 0) k := by
            intro k hk hkn
            rcases Nat.lt_or_ge k i with hki | hki
            · exact lpsSpecAt_congr (hkeep k (by omega)) (hcomp k hki hkn)
            · have hke : k = i := by omega
              subst hke
              exact hspec_i
          have hM' : ∀ d, 1 ≤ d → d ≤ i + 1 → isBorderP p (i + 1 + 1) d →
              d ≤ 0 + 1 := by
            intro d hd1 hdi hb
            obtain ⟨d', rfl⟩ : ∃ d', d = d' + 1 := ⟨d - 1, by omega⟩
            have hb' : isBorderP p (i + 1) d' := border_restrict hb
            rcases Nat.eq_zero_or_pos d' with h0 | h0
            · omega
            · have hd2 := hspec_i.2.2 d' (by omega) hb'
              rw [hset] at hd2
              omega
          exact ih (lps.set i 0) 0 (i + 1) (by omega)
            (by rw [List.length_set]; exact hlen) (by omega) hcomp'
            (border_zero p (i + 1)) hM'

lemma compute_lps_spec (p : List Char) : lpsSpec p (compute_lps p) := by
  unfold compute_lps
  apply lpsLoop_spec p (2 * p.length + 1) (List.replicate p.length 0) 0 1
  · omega
  · exact List.length_replicate ..
  · omega
  · intro k hk hkn
    have hk0 : k = 0 := by omega
    subst hk0
    refine ⟨by rw [getD_replicate], by rw [getD_replicate]; exact border_zero p 1, ?_⟩
    intro c hc hb
    rw [getD_replicate]
    omega
  · exact border_zero p 1
  · intro d hd1 hdi hb
    omega

lemma lps_getD_le (p : List Char) (k : Nat) : (compute_lps p).getD k 0 ≤ k := by
  have hs := compute_lps_spec p
  rcases Nat.lt_or_ge k p.length with h | h
  · exact (hs.2 k h).1
  · rw [List.getD_eq_getElem?_getD, List.getElem?_eq_none (by rw [hs.1]; omega)]
    simp

/-! ## Range filter helpers -/

lemma filter_range_congr (P : Nat → Bool) (a b : Nat) (hab : a ≤ b)
    (h : ∀ x, a ≤ x → x < b → P x = false) :
    (List.range b).filter P = (List.range a).filter P := by
  induction b with
  | zero =>
    have ha : a = 0 := by omega
    subst ha
    rfl
  | succ n ihn =>
    rcases Nat.lt_or_ge a (n + 1) with hlt | hge
    · have han : a ≤ n := by omega
      rw [List.range_succ, List.filter_append]
      have hPn : P n = false := h n han (by omega)
      rw [show List.filter P [n] = [] from by simp [hPn]]
      rw [List.append_nil]
      exact ihn han (fun x hx1 hx2 => h x hx1 (by omega))
    · have ha : a = n + 1 := by omega
      subst ha
      rfl

lemma filter_range_push (P : Nat → Bool) (x : Nat) (hx : P x = true) :
    (List.range (x + 1)).filter P = (List.range x).filter P ++ [x] := by
  rw [List.range_succ, List.filter_append]
  simp [hx]

lemma lpsSpec_getD_le {p : List Char} {lps : List Nat} (h : lpsSpec p lps)
    (k : Nat) : lps.getD k 0 ≤ k := by
  rcases Nat.lt_or_ge k p.length with hk | hk
  · exact (h.2 k hk).1
  · rw [List.getD_eq_getElem?_getD, List.getElem?_eq_none (by rw [h.1]; omega)]
    simp

/-! ## The two failure-transition lemmas of the KMP loop -/

lemma kmp_cascade_match (t p : List Char) {lps : List Nat}
    (hlps : lpsSpec p lps) {i j : Nat} (hjm : j < p.length) (hji : j ≤ i)
    (hmatch : ∀ d < j, t.getD (i - j + d) 'A' = p.getD d 'A') :
    ∀ d < lps.getD (j - 1) 0,
      t.getD (i - lps.getD (j - 1) 0 + d) 'A' = p.getD d 'A' := by
  intro d hd
  have hsp := hlps.2 (j - 1) (by omega)
  have hl : lps.getD (j - 1) 0 ≤ j - 1 := hsp.1
  have hb : isBorderP p j (lps.getD (j - 1) 0) := by
    have hb0 := hsp.2.1
    have he : j - 1 + 1 = j := by omega
    rwa [he] at hb0
  have e1 : p.getD d 'A' = p.getD (j - lps.getD (j - 1) 0 + d) 'A' := hb.2 d hd
  have e2 := hmatch (j - lps.getD (j - 1) 0 + d) (by omega)
  have hidx : i - j + (j - lps.getD (j - 1) 0 + d) = i - lps.getD (j - 1) 0 + d := by
    omega
  rw [hidx] at e2
  rw [e2, ← e1]

lemma kmp_cascade_acc (t p : List Char) {lps : List Nat}
    (hlps : lpsSpec p lps) {i j : Nat} (hjm : j < p.length) (hji : j ≤ i)
    (hmatch : ∀ d < j, t.getD (i - j + d) 'A' = p.getD d 'A')
    (hmis : ¬(p.getD j 'A' = t.getD i 'A')) :
    (List.range (i - j)).filter (fun x => decide (occursAt t p x)) =
      (List.range (i - lps.getD (j - 1) 0)).filter
        (fun x => decide (occursAt t p x)) := by
  have hsp := hlps.2 (j - 1) (by omega)
  have hl : lps.getD (j - 1) 0 ≤ j - 1 := hsp.1
  refine (filter_range_congr _ (i - j) (i - lps.getD (j - 1) 0) (by omega) ?_).symm
  intro x hx1 hx2
  apply decide_eq_false
  intro hocc
  obtain ⟨hxb, hxc⟩ := hocc
  have hk1 : i - x ≤ j := by omega
  have hk2 : lps.getD (j - 1) 0 < i - x := by omega
  rcases Nat.eq_or_lt_of_le hk1 with hkj | hkj
  · -- the window would restart exactly at i - j, contradicting the mismatch
    have hxe : x + j = i := by omega
    have := hxc j hjm
    rw [hxe] at this
    exact hmis this.symm
  · -- a shorter restart would be a border longer than lps[j-1]
    have hkm : i - x < j := hkj
    have hbord : isBorderP p j (i - x) := by
      refine ⟨by omega, fun d hd => ?_⟩
      have e1 := hxc d (by omega)
      have e2 := hmatch (j - (i - x) + d) (by omega)
      have hidx : i - j + (j - (i - x) + d) = x + d := by omega
      rw [hidx] at e2
      rw [← e1, e2]
    have hbord2 : isBorderP p (j - 1 + 1) (i - x) := by
      have he : j - 1 + 1 = j := by omega
      rw [he]
      exact hbord
    have := hsp.2.2 (i - x) (by omega) hbord2
    omega

/-! ## The full-match transition of the KMP loop -/

lemma kmp_fullmatch (t p : List Char) {lps : List Nat} (hlps : lpsSpec p lps)
    {i j : Nat} (hjm1 : j + 1 = p.length) (hji : j ≤ i) (hin : i < t.length)
    (hmatch : ∀ d < j, t.getD (i - j + d) 'A' = p.getD d 'A')
    (hc : p.getD j 'A' = t.getD i 'A') :
    occursAt t p (i + 1 - p.length) ∧
      (∀ d < lps.getD (p.length - 1) 0,
        t.getD (i + 1 - lps.getD (p.length - 1) 0 + d) 'A' = p.getD d 'A') ∧
      (List.range (i + 1 - p.length + 1)).filter (fun x => decide (occursAt t p x)) =
        (List.range (i + 1 - lps.getD (p.length - 1) 0)).filter
          (fun x => decide (occursAt t p x)) := by
  have hsp := hlps.2 (p.length - 1) (by omega)
  have hl : lps.getD (p.length - 1) 0 ≤ p.length - 1 := hsp.1
  have hbord : isBorderP p p.length (lps.getD (p.length - 1) 0) := by
    have hb0 := hsp.2.1
    have he : p.length - 1 + 1 = p.length := by omega
    rwa [he] at hb0
  have hocc : occursAt t p (i + 1 - p.length) := by
    refine ⟨by omega, fun d hd => ?_⟩
    rcases Nat.lt_or_ge d j with hdj | hdj
    · have e := hmatch d hdj
      have hidx : i - j + d = i + 1 - p.length + d := by omega
      rwa [hidx] at e
    · have hdj2 : d = j := by omega
      rw [hdj2]
      have hidx : i + 1 - p.length + j = i := by omega
      rw [hidx]
      exact hc.symm
  refine ⟨hocc, ?_, ?_⟩
  · intro d hd
    have e1 : p.getD d 'A' = p.getD (p.length - lps.getD (p.length - 1) 0 + d) 'A' :=
      hbord.2 d hd
    have e2 := hocc.2 (p.length - lps.getD (p.length - 1) 0 + d) (by omega)
    have hidx : i + 1 - p.length + (p.length - lps.getD (p.length - 1) 0 + d) =
        i + 1 - lps.getD (p.length - 1) 0 + d := by omega
    rw [hidx] at e2
    rw [e2, ← e1]
  · refine (filter_range_congr _ (i + 1 - p.length + 1)
      (i + 1 - lps.getD (p.length - 1) 0) (by omega) ?_).symm
    intro x hx1 hx2
    apply decide_eq_false
    intro hocc2
    obtain ⟨hxb, hxc⟩ := hocc2
    have hk1 : i + 1 - x ≤ p.length - 1 := by omega
    have hk2 : lps.getD (p.length - 1) 0 < i + 1 - x := by omega
    have hbord2 : isBorderP p p.length (i + 1 - x) := by
      refine ⟨by omega, fun d hd => ?_⟩
      have e1 := hxc d (by omega)
      have e2 := hocc.2 (x - (i + 1 - p.length) + d) (by omega)
      have hidx : i + 1 - p.length + (x - (i + 1 - p.length) + d) = x + d := by omega
      rw [hidx] at e2
      have hidx2 : x - (i + 1 - p.length) + d = p.length - (i + 1 - x) + d := by omega
      rw [hidx2] at e2
      rw [← e1, e2]
    have hbord3 : isBorderP p (p.length - 1 + 1) (i + 1 - x) := by
      have he : p.length - 1 + 1 = p.length := by omega
      rw [he]
      exact hbord2
    have := hsp.2.2 (i + 1 - x) (by omega) hbord3
    omega

/-! ## Correctness of the KMP search loop -/

lemma kmpLoop_eq (t p : List Char) {lps : List Nat} (hlps : lpsSpec p lps)
    (hp : p ≠ []) (hmn : p.length ≤ t.length) :
    ∀ (fuel : Nat) (i j : Nat) (acc : List Nat),
      2 * (t.length - i) + j < fuel →
      j < p.length → j ≤ i → i ≤ t.length →
      (∀ d < j, t.getD (i - j + d) 'A' = p.getD d 'A') →
      acc = (List.range (i - j)).filter (fun x => decide (occursAt t p x)) →
      kmpLoop t p lps i j acc fuel = occList t p := by
  have hm1 : 1 ≤ p.length := List.length_pos.mpr hp
  intro fuel
  induction fuel with
  | zero =>
    intro i j acc hf
    exact absurd hf (by omega)
  | succ f ih =>
    intro i j acc hf hjm hji hin hmatch hacc
    simp only [kmpLoop]
    by_cases h1 : i < t.length
    case neg =>
      rw [if_neg h1]
      have hie : i = t.length := by omega
      rw [hacc]
      unfold occList
      refine filter_range_congr _ (t.length + 1 - p.length) (i - j) (by omega) ?_
      intro x hx1 hx2
      apply decide_eq_false
      intro hocc
      obtain ⟨hxb, -⟩ := hocc
      omega
    case pos =>
      rw [if_pos h1]
      by_cases h2 : p.getD j 'A' = t.getD i 'A'
      case pos =>
        rw [if_pos h2]
        by_cases h4 : j + 1 = p.length
        case pos =>
          rw [if_pos h4]
          obtain ⟨hocc, hmatch', haccs⟩ :=
            kmp_fullmatch t p hlps h4 hji h1 hmatch h2
          have hle : lps.getD (p.length - 1) 0 ≤ p.length - 1 :=
            (hlps.2 (p.length - 1) (by omega)).1
          apply ih (i + 1) (lps.getD (p.length - 1) 0)
            (acc ++ [i + 1 - p.length])
          · omega
          · omega
          · omega
          · omega
          · exact hmatch'
          · have hij : i - j = i + 1 - p.length := by omega
            rw [hacc, hij, ← filter_range_push _ _ (decide_eq_true hocc)]
            exact haccs.symm ▸ rfl
        case neg =>
          rw [if_neg h4]
          have hjm2 : j + 1 < p.length := by omega
          have hmatch1 : ∀ d < j + 1,
              t.getD (i + 1 - (j + 1) + d) 'A' = p.getD d 'A' := by
            intro d hd
            have hidx : i + 1 - (j + 1) + d = i - j + d := by omega
            rw [hidx]
            rcases Nat.lt_or_ge d j with hdj | hdj
            · exact hmatch d hdj
            · have hde : d = j := by omega
              rw [hde]
              have hidx2 : i - j + j = i := by omega
              rw [hidx2]
              exact h2.symm
          by_cases h5 : i + 1 < t.length ∧ ¬(p.getD (j + 1) 'A' = t.getD (i + 1) 'A')
          case pos =>
            rw [if_pos h5]
            rw [if_pos (by omega : j + 1 ≠ 0)]
            have hle : lps.getD (j + 1 - 1) 0 ≤ j + 1 - 1 :=
              lpsSpec_getD_le hlps (j + 1 - 1)
            apply ih (i + 1) (lps.getD (j + 1 - 1) 0) acc
            · omega
            · omega
            · omega
            · omega
            · exact kmp_cascade_match t p hlps hjm2 (by omega) hmatch1
            · rw [hacc]
              have hij : i - j = i + 1 - (j + 1) := by omega
              rw [hij]
              exact kmp_cascade_acc t p hlps hjm2 (by omega) hmatch1 h5.2
          case neg =>
            rw [if_neg h5]
            apply ih (i + 1) (j + 1) acc
            · omega
            · omega
            · omega
            · omega
            · exact hmatch1
            · rw [hacc]
              have hij : i - j = i + 1 - (j + 1) := by omega
              rw [hij]
      case neg =>
        rw [if_neg h2]
        rw [if_neg (by omega : ¬(j = p.length))]
        by_cases h5 : i < t.length ∧ ¬(p.getD j 'A' = t.getD i 'A')
        case pos =>
          rw [if_pos h5]
          by_cases h6 : j ≠ 0
          case pos =>
            rw [if_pos h6]
            have hle : lps.getD (j - 1) 0 ≤ j - 1 := lpsSpec_getD_le hlps (j - 1)
            apply ih i (lps.getD (j - 1) 0) acc
            · omega
            · omega
            · omega
            · omega
            · exact kmp_cascade_match t p hlps hjm hji hmatch
            · rw [hacc]
              exact kmp_cascade_acc t p hlps hjm hji hmatch h2
          case neg =>
            rw [if_neg h6]
            have hj0 : j = 0 := by omega
            subst hj0
            apply ih (i + 1) 0 acc
            · omega
            · omega
            · omega
            · omega
            · intro d hd
              exact absurd hd (by omega)
            · rw [hacc]
              refine (filter_range_congr _ (i - 0) (i + 1 - 0) (by omega) ?_).symm
              intro x hx1 hx2
              apply decide_eq_false
              intro hocc
              obtain ⟨hxb, hxc⟩ := hocc
              have hxe : x = i := by omega
              have := hxc 0 (by omega)
              rw [hxe] at this
              simp only [Nat.add_zero] at this
              exact h2 this.symm
        case neg =>
          exact absurd ⟨h1, h2⟩ h5

lemma kmp_search_eq (t p : List Char) (hp : p ≠ []) :
    kmp_search t p = occList t p := by
  unfold kmp_search
  have hpe : ¬(p.isEmpty = true) := by simp [List.isEmpty_iff, hp]
  rw [if_neg hpe]
  by_cases hmn : p.length > t.length
  · rw [if_pos hmn]
    unfold occList
    have he : t.length + 1 - p.length = 0 := by omega
    rw [he]
    rfl
  · rw [if_neg hmn]
    apply kmpLoop_eq t p (compute_lps_spec p) hp (by omega) (2 * t.length + 1) 0 0 []
    · omega
    · exact List.length_pos.mpr hp
    · omega
    · omega
    · intro d hd
      exact absurd hd (by omega)
    · rfl

lemma mem_occList {t p : List Char} (hp : p ≠ []) (x : Nat) :
    x ∈ occList t p ↔ occursAt t p x := by
  unfold occList
  rw [List.mem_filter, List.mem_range]
  constructor
  · rintro ⟨-, hdec⟩
    exact of_decide_eq_true hdec
  · intro hocc
    have hm1 : 1 ≤ p.length := List.length_pos.mpr hp
    have hb := hocc.1
    exact ⟨by omega, decide_eq_true hocc⟩

lemma mem_kmp_search {t p : List Char} (hp : p ≠ []) (x : Nat) :
    x ∈ kmp_search t p ↔ occursAt t p x := by
  rw [kmp_search_eq t p hp]
  exact mem_occList hp x

lemma kmp_search_nodup (t p : List Char) : (kmp_search t p).Nodup := by
  by_cases hp : p = []
  · subst hp
    have he : kmp_search t [] = [] := rfl
    rw [he]
    exact List.nodup_nil
  · rw [kmp_search_eq t p hp]
    exact (List.nodup_range _).filter _

lemma mem_kmp_search_bound {t p : List Char} {x : Nat} (h : x ∈ kmp_search t p) :
    x + p.length ≤ t.length := by
  by_cases hp : p = []
  · subst hp
    have he : kmp_search t [] = [] := rfl
    rw [he] at h
    exact absurd h (List.not_mem_nil x)
  · exact ((mem_kmp_search hp x).mp h).1

lemma mem_kmp_search_with_iupac_bound {t p : List Char} {x : Nat}
    (h : x ∈ kmp_search_with_iupac t p) : x + p.length ≤ t.length := by
  by_cases hp : p = []
  · subst hp
    have he : kmp_search_with_iupac t [] = [] := rfl
    rw [he] at h
    exact absurd h (List.not_mem_nil x)
  · exact ((mem_kmp_search_with_iupac t p hp x).mp h).1

/-- Claim C4: for every strand text and nonempty exact motif, the exact
matcher reports each 0-based position at which the motif literally occurs
(case-sensitive character equality) exactly once — the match list has no
duplicates, its members are exactly the occurrence positions, and it equals
the ascending list of all occurrences, so overlapping occurrences are all
reported and none suppressed; per corpus motif, one SearchedDesc is emitted
for every occurrence position of that motif. -/
theorem c4_exact_matcher (t p : List Char) (hp : p ≠ []) :
    ((kmp_search t p).Nodup ∧
      (∀ x : Nat, x ∈ kmp_search t p ↔ occursAt t p x) ∧
      kmp_search t p = occList t p) ∧
    (∀ (db : PlaceDB) (q : RecordDesc) (m : SeqDesc), m ∈ db.seq_desc.exact →
      m.sq ≠ [] → ∀ x : Nat, occursAt q.seq m.sq x →
      SearchedDesc.new q.id (x + 1) (x + m.sq.length + 1) 1 m.id m.sq.length
        m.sq m.ac m.de ∈ exact_fwd_descs db q) := by
  refine ⟨⟨kmp_search_nodup t p, fun x => mem_kmp_search hp x,
    kmp_search_eq t p hp⟩, ?_⟩
  intro db q m hm hsq x hocc
  unfold exact_fwd_descs
  rw [List.mem_flatMap]
  refine ⟨m, hm, ?_⟩
  rw [List.mem_map]
  exact ⟨x, (mem_kmp_search hsq x).mpr hocc, rfl⟩

/-- Witness for c4_exact_matcher: pattern AA in text AAAA (overlapping
occurrences at 0, 1, 2). -/
theorem c4_witness :
    (['A', 'A'] : List Char) ≠ [] ∧
      (((kmp_search ['A', 'A', 'A', 'A'] ['A', 'A']).Nodup ∧
        (∀ x : Nat, x ∈ kmp_search ['A', 'A', 'A', 'A'] ['A', 'A'] ↔
          occursAt ['A', 'A', 'A', 'A'] ['A', 'A'] x) ∧
        kmp_search ['A', 'A', 'A', 'A'] ['A', 'A'] =
          occList ['A', 'A', 'A', 'A'] ['A', 'A']) ∧
      (∀ (db : PlaceDB) (q : RecordDesc) (m : SeqDesc), m ∈ db.seq_desc.exact →
        m.sq ≠ [] → ∀ x : Nat, occursAt q.seq m.sq x →
        SearchedDesc.new q.id (x + 1) (x + m.sq.length + 1) 1 m.id m.sq.length
          m.sq m.ac m.de ∈ exact_fwd_descs db q)) :=
  ⟨by decide, c4_exact_matcher ['A', 'A', 'A', 'A'] ['A', 'A'] (by decide)⟩

/-! ## Orchestration plumbing for C1 and C2 -/

lemma mem_result_matches (db : PlaceDB) (q : RecordDesc) (d : SearchedDesc) :
    d ∈ result_matches db q ↔
      (d ∈ exact_fwd_descs db q ∨ d ∈ exact_rev_descs db q ∨
        d ∈ iupac_fwd_descs db q ∨ d ∈ iupac_rev_descs db q) := by
  have he : result_matches db q = sort_by_q_start
      ((exact_fwd_descs db q ++ exact_rev_descs db q) ++
        (iupac_fwd_descs db q ++ iupac_rev_descs db q)) := by
    unfold result_matches
    rw [search_elements_single_seq_eq]
    simp [single_res, SearchResult.new]
  rw [he]
  unfold sort_by_q_start
  rw [(List.perm_insertionSort _ _).mem_iff]
  simp [or_assoc]

lemma map_toUpper_acgt {l : List Char}
    (h : ∀ c ∈ l, c = 'A' ∨ c = 'C' ∨ c = 'G' ∨ c = 'T') :
    l.map Char.toUpper = l := by
  induction l with
  | nil => rfl
  | cons a tl ih =>
    have ha := h a (List.mem_cons_self ..)
    have hup : a.toUpper = a := by
      rcases ha with h0 | h0 | h0 | h0 <;> rw [h0] <;> decide
    simp only [List.map_cons, hup, List.cons.injEq, true_and]
    exact ih (fun c hc => h c (List.mem_cons_of_mem _ hc))

lemma reverse_complement_length (s : List Char) :
    (reverse_complement s).length = s.length := by
  simp [reverse_complement]

/-- Claim C1, counterexample: on the one-motif corpus whose exact motif is
the literal A (length 1), the query whose sequence equals that motif yields
exactly one match, the forward match with start 1 and end 2 — so the
reported end minus start plus one is 2, not the motif length 1, and the
claimed match (start 1, end 1, dir 1) is not produced. -/
theorem c1_counterexample :
    result_matches db_A (RecordDesc.new "q" ['A']) =
        [⟨"q", 1, 2, 1, "M1", 1, ['A'], "AC1", "motif A"⟩] ∧
      (2 : Nat) - 1 + 1 ≠ 1 := by
  decide

/-- Claim C1, amended: every reported match has a 1-based start and
satisfies end - start = motif length (the reported end is one past the
1-based inclusive end), with the copied motif length equal to the copied
motif sequence length; in particular, for every literal-only motif m
searching the query whose sequence equals m yields the forward match
(start = 1, end = len(m) + 1, dir = 1). -/
theorem c1_amended :
    (∀ (db : PlaceDB) (id : String) (seq : List Char) (d : SearchedDesc),
      d ∈ result_matches db (RecordDesc.new id seq) →
      (d.q_end - d.q_start = d.e_len ∧ 1 ≤ d.q_start ∧ d.e_len = d.e_sq.length)) ∧
    (∀ (db : PlaceDB) (id : String) (m : SeqDesc), m ∈ db.seq_desc.exact →
      m.sq ≠ [] → (∀ c ∈ m.sq, c = 'A' ∨ c = 'C' ∨ c = 'G' ∨ c = 'T') →
      SearchedDesc.new id 1 (m.sq.length + 1) 1 m.id m.sq.length m.sq m.ac m.de ∈
        result_matches db (RecordDesc.new id m.sq)) := by
  constructor
  · intro db id seq d hd
    rw [mem_result_matches] at hd
    have hlen_rc :
        (reverse_complement (RecordDesc.new id seq).seq).length = seq.length := by
      rw [reverse_complement_length]
      simp [RecordDesc.new]
    rcases hd with hd | hd | hd | hd
    · unfold exact_fwd_descs at hd
      rw [List.mem_flatMap] at hd
      obtain ⟨m, hm, hd⟩ := hd
      rw [List.mem_map] at hd
      obtain ⟨x, hx, rfl⟩ := hd
      simp only [SearchedDesc.new, and_true, true_and]
      omega
    · unfold exact_rev_descs at hd
      rw [List.mem_flatMap] at hd
      obtain ⟨m, hm, hd⟩ := hd
      rw [List.mem_map] at hd
      obtain ⟨x, hx, rfl⟩ := hd
      have hb := mem_kmp_search_bound hx
      rw [hlen_rc] at hb
      simp only [SearchedDesc.new, RecordDesc.new, and_true, true_and]
      omega
    · unfold iupac_fwd_descs at hd
      rw [List.mem_flatMap] at hd
      obtain ⟨m, hm, hd⟩ := hd
      rw [List.mem_map] at hd
      obtain ⟨x, hx, rfl⟩ := hd
      simp only [SearchedDesc.new, and_true, true_and]
      omega
    · unfold iupac_rev_descs at hd
      rw [List.mem_flatMap] at hd
      obtain ⟨m, hm, hd⟩ := hd
      rw [List.mem_map] at hd
      obtain ⟨x, hx, rfl⟩ := hd
      have hb := mem_kmp_search_with_iupac_bound hx
      rw [hlen_rc] at hb
      simp only [SearchedDesc.new, RecordDesc.new, and_true, true_and]
      omega
  · intro db id m hm hsq hacgt
    have hup : (RecordDesc.new id m.sq).seq = m.sq := by
      simp only [RecordDesc.new]
      exact map_toUpper_acgt hacgt
    rw [mem_result_matches]
    refine Or.inl ?_
    unfold exact_fwd_descs
    rw [List.mem_flatMap]
    refine ⟨m, hm, ?_⟩
    rw [List.mem_map]
    refine ⟨0, ?_, ?_⟩
    · rw [hup]
      apply (mem_kmp_search hsq 0).mpr
      refine ⟨by omega, fun d hd => ?_⟩
      rw [Nat.zero_add]
    · simp [SearchedDesc.new, RecordDesc.new]

/-- Witness for c1_amended: its second part applied to the one-motif
corpus db_A, plus the first part applied to the resulting match. -/
theorem c1_witness :
    (SearchedDesc.new "q" 1 ((mkSeqDesc "M1" "AC1" "motif A" ['A']).sq.length + 1) 1
        (mkSeqDesc "M1" "AC1" "motif A" ['A']).id
        (mkSeqDesc "M1" "AC1" "motif A" ['A']).sq.length
        (mkSeqDesc "M1" "AC1" "motif A" ['A']).sq
        (mkSeqDesc "M1" "AC1" "motif A" ['A']).ac
        (mkSeqDesc "M1" "AC1" "motif A" ['A']).de ∈
      result_matches db_A (RecordDesc.new "q" (mkSeqDesc "M1" "AC1" "motif A" ['A']).sq)) :=
  c1_amended.2 db_A "q" (mkSeqDesc "M1" "AC1" "motif A" ['A'])
    (by decide) (by decide) (by decide)

/-- Claim C2, counterexample: query A (length 1) whose reverse complement
is T, against the one-motif corpus whose exact motif is the literal T.
The motif occurs in the reverse complement at 1-based inclusive [1, 1], so
the claim demands end = 1 + 1 - 1 = 1; the code reports the reverse match
(start 1, end 2, dir 0) instead. -/
theorem c2_counterexample :
    result_matches db_T (RecordDesc.new "q" ['A']) =
        [⟨"q", 1, 2, 0, "M1", 1, ['T'], "AC1", "motif T"⟩] ∧
      (2 : Nat) ≠ 1 + 1 - 1 := by
  decide

/-- Claim C2, amended: a match of a motif found on the reverse-complement
strand at 1-based inclusive coordinates [s1, e1] within the reverse
complement of a query of length L is reported in forward-query coordinates
as start = L + 1 - e1 and end = L + 2 - s1 (one past the claimed
L + 1 - s1), with direction flag 0. -/
theorem c2_amended (db : PlaceDB) (id : String) (seq : List Char) (m : SeqDesc)
    (s1 e1 : Nat) (hs1 : 1 ≤ s1) (he1 : e1 = s1 + m.sq.length - 1)
    (hocc : (m ∈ db.seq_desc.exact ∧
        s1 - 1 ∈ kmp_search (reverse_complement (RecordDesc.new id seq).seq) m.sq) ∨
      (m ∈ db.seq_desc.iupac ∧
        s1 - 1 ∈ kmp_search_with_iupac
          (reverse_complement (RecordDesc.new id seq).seq) m.sq)) :
    (⟨id, seq.length + 1 - e1, seq.length + 2 - s1, 0, m.id, m.sq.length, m.sq,
        m.ac, m.de⟩ : SearchedDesc) ∈ result_matches db (RecordDesc.new id seq) := by
  rw [mem_result_matches]
  rcases hocc with ⟨hm, hx⟩ | ⟨hm, hx⟩
  · have hsqne : m.sq ≠ [] := by
      intro he
      rw [he] at hx
      exact absurd hx (List.not_mem_nil _)
    refine Or.inr (Or.inl ?_)
    unfold exact_rev_descs
    rw [List.mem_flatMap]
    refine ⟨m, hm, ?_⟩
    rw [List.mem_map]
    refine ⟨s1 - 1, hx, ?_⟩
    simp [SearchedDesc.new, RecordDesc.new, SearchedDesc.mk.injEq]
    omega
  · have hsqne : m.sq ≠ [] := by
      intro he
      rw [he] at hx
      exact absurd hx (List.not_mem_nil _)
    refine Or.inr (Or.inr (Or.inr ?_))
    unfold iupac_rev_descs
    rw [List.mem_flatMap]
    refine ⟨m, hm, ?_⟩
    rw [List.mem_map]
    refine ⟨s1 - 1, hx, ?_⟩
    simp [SearchedDesc.new, RecordDesc.new, SearchedDesc.mk.injEq]
    omega

/-- Witness for c2_amended: the reverse match of motif T against query A
on the corpus db_T, at reverse-complement coordinates [1, 1]. -/
theorem c2_witness :
    ((mkSeqDesc "M1" "AC1" "motif T" ['T']) ∈ db_T.seq_desc.exact ∧
      1 - 1 ∈ kmp_search (reverse_complement (RecordDesc.new "q" ['A']).seq)
        (mkSeqDesc "M1" "AC1" "motif T" ['T']).sq) ∧
    (⟨"q", (['A'] : List Char).length + 1 - 1, (['A'] : List Char).length + 2 - 1, 0,
        "M1", 1, ['T'], "AC1", "motif T"⟩ : SearchedDesc) ∈
      result_matches db_T (RecordDesc.new "q" ['A']) :=
  ⟨by decide, c2_amended db_T "q" ['A'] (mkSeqDesc "M1" "AC1" "motif T" ['T']) 1 1
    (by decide) (by decide) (Or.inl ⟨by decide, by decide⟩)⟩
